import Mathlib

/-!
Verification development for the bowline pipeline-orchestration runtime.

The definitions below are a shallow embedding of `bowline/models/processor.py`,
`bowline/models/chain.py` and `bowline/models/graph.py`:

* `multiprocessing.Queue` objects are modelled by identifiers (`QueueId`)
  into an ambient store `QStore α` mapping each identifier to the FIFO list
  of its contents (`put` appends at the tail, `get` pops the head).
  Distinct `Queue()` allocations yield distinct identifiers, matching
  Python object identity.
* A pydantic model class is modelled by a tag `ModelTy` (distinct classes
  get distinct tags); the `input_model` / `output_model` attributes are
  `Option ModelTy` (`none` = Python `None`).
* Python's `type(a) is type(b)` applied to two `Optional[Type[BaseModel]]`
  attributes is embedded by `pyTypeIs`: `type(c)` of any pydantic model
  class is the shared metaclass, while `type(None)` is `NoneType`, so the
  comparison holds exactly when both sides are classes or both are `None`.
* `raise` is modelled with `Except PyErr`; a target function that may raise
  has type `Option α → Except Unit (Option α)` (`.error` = raised,
  `.ok none` = returned `None`).
-/

set_option autoImplicit false

namespace Bowline

/-- Tag standing for a pydantic model class; distinct classes receive
distinct tags. -/
abbrev ModelTy := Nat

/-- Identifier of a `multiprocessing.Queue` object. -/
abbrev QueueId := Nat

/-- Ambient store of queue contents: index `q` holds the FIFO contents of
queue `q`, head = next item to be dequeued. -/
abbrev QStore (α : Type) := List (List α)

/-- Embedding of the Python exceptions raised by the source. -/
inductive PyErr where
  | valueError : String → PyErr
  | runtimeError : String → PyErr
  | indexError : PyErr
  deriving DecidableEq

/-- Allocate a fresh `Queue()`: a new empty queue with a fresh identifier. -/
def qalloc {α : Type} (st : QStore α) : QStore α × QueueId :=
  (st ++ [[]], st.length)

/-- `Queue.put(v)`: append `v` at the tail of queue `q`. -/
def qput {α : Type} (st : QStore α) (q : QueueId) (v : α) : QStore α :=
  st.set q (st.getD q [] ++ [v])

/-- `Queue.empty()` for queue `q`. -/
def qempty {α : Type} (st : QStore α) (q : QueueId) : Bool :=
  (st.getD q []).isEmpty

/-- `Queue.get()` on a non-empty queue `q`: pop the head; `none` when the
queue is empty (the `queue.Empty` timeout case of `get(timeout=1)`). -/
def qget? {α : Type} (st : QStore α) (q : QueueId) : Option (α × QStore α) :=
  match st.getD q [] with
  | [] => none
  | x :: xs => some (x, st.set q xs)

/-- Embedding of `type(a) is type(b)` on two `Optional[Type[BaseModel]]`
attributes: every pydantic model class has the same metaclass and
`type(None)` is `NoneType`, so the test holds iff both are classes or both
are `None`. -/
def pyTypeIs (a b : Option ModelTy) : Bool :=
  a.isSome == b.isSome

/-- Modelled from the spec: `bowline/models/result.py` is imported by the
source but its file is not among the sources; the spec describes `Result`
as an immutable pair `\x7bprocessor: name, output: item\x7d`. -/
structure Result (α : Type) where
  processor : String
  output : α
  deriving DecidableEq

/-- State of `bowline.models.processor.Processor`: constructor parameters
plus the runtime fields `_input_queue`, `_output_queues` and the list of
spawned worker handles (`_processes`, modelled by its length). -/
structure Processor where
  name : String
  input_model : Option ModelTy
  output_model : Option ModelTy
  instances : Nat
  inputQueue : Option QueueId
  outputQueues : List QueueId
  processes : Nat
  deriving DecidableEq

/-- Placeholder processor used as the (never reached) default of list
lookups. -/
def emptyProc : Processor :=
  { name := "", input_model := none, output_model := none,
    instances := 1, inputQueue := none, outputQueues := [], processes := 0 }

/-- `Processor.__init__` followed by the `_setup` it calls: records the
parameters, then creates the input queue when an input model is declared
and one default output queue when an output model is declared. No worker
is spawned. -/
def Processor.init (α : Type) (name : String)
    (input_model output_model : Option ModelTy) (instances : Nat)
    (st : QStore α) : Processor × QStore α :=
  let si := if input_model.isSome then
      let r := qalloc st; (some r.2, r.1)
    else (none, st)
  let so := if output_model.isSome then
      let r := qalloc si.2; ([r.2], r.1)
    else ([], si.2)
  ({ name := name, input_model := input_model, output_model := output_model,
     instances := instances, inputQueue := si.1, outputQueues := so.1,
     processes := 0 }, so.2)

/-- `Processor.start`: raises if workers were already spawned, otherwise
spawns `instances` workers. -/
def Processor.start (p : Processor) : Except PyErr Processor :=
  if p.processes ≠ 0 then
    .error (.runtimeError "This processor has already been started. You cannot start it again.")
  else .ok { p with processes := p.instances }

/-- `Processor.push_input`: raises unless an input model was declared and
an input queue exists, otherwise enqueues onto the input queue. -/
def Processor.push_input {α : Type} (p : Processor) (st : QStore α) (v : α) :
    Except PyErr (QStore α) :=
  if p.input_model.isNone then
    .error (.valueError "No input model was specified. Cannot push data to this process.")
  else
    match p.inputQueue with
    | none => .error (.valueError "Input queue does not exists. Did you specify an input model?")
    | some q => .ok (qput st q v)

/-- The `for` loop of `Processor.get_output`: return a `Result` wrapping
one item popped from the first non-empty output queue. -/
def getFirstOutput {α : Type} (name : String) (qs : List QueueId)
    (st : QStore α) : Option (Result α) × QStore α :=
  match qs with
  | [] => (none, st)
  | q :: rest =>
    if qempty st q then getFirstOutput name rest st
    else
      match qget? st q with
      | some r => (some { processor := name, output := r.1 }, r.2)
      | none => (none, st)

/-- `Processor.get_output`. -/
def Processor.get_output {α : Type} (p : Processor) (st : QStore α) :
    Option (Result α) × QStore α :=
  if p.outputQueues.isEmpty || p.outputQueues.all (fun q => qempty st q) then
    (none, st)
  else getFirstOutput p.name p.outputQueues st

/-- `Processor.has_output`. -/
def Processor.has_output {α : Type} (p : Processor) (st : QStore α) : Bool :=
  !p.outputQueues.isEmpty && p.outputQueues.any (fun q => !qempty st q)

/-- `Processor.get_output_queue`: raises when the processor has several
output queues, `none` when it has none, else its sole output queue. -/
def Processor.get_output_queue (p : Processor) : Except PyErr (Option QueueId) :=
  if p.outputQueues.length > 1 then
    .error (.valueError "Processor has multiple output queues. Unable to determine which queue should be retrieved.")
  else
    match p.outputQueues with
    | [] => .ok none
    | q :: _ => .ok (some q)

/-- `Processor.set_input_queue` (the argument may be the `None` returned by
`get_output_queue`). -/
def Processor.set_input_queue (p : Processor) (q : Option QueueId) : Processor :=
  { p with inputQueue := q }

/-- `Processor.add_output_queue`: raises when the queue is already among
the output queues, otherwise appends it. -/
def Processor.add_output_queue (p : Processor) (q : QueueId) :
    Except PyErr Processor :=
  if q ∈ p.outputQueues then
    .error (.valueError "queue is already set as an output queue.")
  else .ok { p with outputQueues := p.outputQueues ++ [q] }

/-- Step d of the worker loop (`Processor._run`, lines 216-219): if output
queues exist and the invocation produced a result, push the result onto
every output queue. -/
def pushResult {α : Type} (outputQueues : List QueueId) (result : Option α)
    (st : QStore α) : QStore α :=
  if !outputQueues.isEmpty then
    match result with
    | some r => outputQueues.foldl (fun s q => qput s q r) st
    | none => st
  else st

/-- Worker-visible state during one iteration of `Processor._run`: the
queue store and this instance's `inputs_processed` counter. -/
structure WorkerView (α : Type) where
  store : QStore α
  counter : Nat
  deriving DecidableEq

/-- One iteration of the `Processor._run` loop body (lines 193-219), past
the signal check: dequeue from the input queue when one exists (the empty
branch is the `queue.Empty` timeout, which leaves everything unchanged),
run the target function with any exception caught (leaving `result` as
`None`), increment the counter after the invocation, and fan the result
out onto every output queue. A processor with no input queue calls the
target with no argument and does not touch the counter. -/
def run_step {α : Type} (target : Option α → Except Unit (Option α))
    (inputQueue : Option QueueId) (outputQueues : List QueueId)
    (w : WorkerView α) : WorkerView α :=
  match inputQueue with
  | some iq =>
    match qget? w.store iq with
    | none => w
    | some r =>
      let result : Option α :=
        match target (some r.1) with
        | .ok res => res
        | .error _ => none
      { store := pushResult outputQueues result r.2, counter := w.counter + 1 }
  | none =>
    let result : Option α :=
      match target none with
      | .ok res => res
      | .error _ => none
    { store := pushResult outputQueues result w.store, counter := w.counter }

/-- Interleaved execution of the worker loops of the `instances` parallel
workers of one processor: all workers share the input queue and the output
queues, each owns its `inputs_processed` counter; the schedule lists which
instance performs each successive iteration. -/
def run_sched {α : Type} (target : Option α → Except Unit (Option α))
    (inputQueue : Option QueueId) (outputQueues : List QueueId) :
    List Nat → QStore α × List Nat → QStore α × List Nat
  | [], s => s
  | j :: rest, (st, counters) =>
    let w := run_step target inputQueue outputQueues ⟨st, counters.getD j 0⟩
    run_sched target inputQueue outputQueues rest (w.store, counters.set j w.counter)

/-- The `for i in range(self.instances)` loop of one pass of
`BaseProcessor.shutdown`: each still-alive instance `i` is sent a shutdown
signal and joined with a timeout; `killed i` tells whether instance `i` is
observed dead after its join (a scheduling fact, supplied as an oracle). -/
def signalJoin (killed : Nat → Bool) : Nat → List Bool → List Bool
  | _, [] => []
  | i, a :: rest => (a && !(killed i)) :: signalJoin killed (i + 1) rest

/-- One pass of the `while` loop of `BaseProcessor.shutdown`: run the
signal-and-join loop over all instances and count the signals sent (one
per still-alive instance). -/
def shutdown_pass (killed : Nat → Bool) (alive : List Bool) :
    List Bool × Nat :=
  (signalJoin killed 0 alive, (alive.filter (fun a => a)).length)

/-- The `while alive_processes` loop of `BaseProcessor.shutdown`,
parameterised by the join oracle (pass number × instance → observed dead)
and by fuel bounding the number of passes we unfold; `none` means the loop
was still running when the fuel ran out. Accumulates the number of signals
sent. -/
def shutdown_loop (oracle : Nat → Nat → Bool) :
    Nat → Nat → List Bool → Nat → Option (List Bool × Nat)
  | 0, _, alive, sig =>
    if alive.any (fun a => a) then none else some (alive, sig)
  | fuel + 1, pass, alive, sig =>
    if alive.any (fun a => a) then
      let r := shutdown_pass (oracle pass) alive
      shutdown_loop oracle fuel (pass + 1) r.1 (sig + r.2)
    else some (alive, sig)

/-- `BaseProcessor.shutdown`: compute the alive list, then run the
signal-and-join passes until no worker remains alive. -/
def shutdown (oracle : Nat → Nat → Bool) (fuel : Nat) (alive : List Bool) :
    Option (List Bool × Nat) :=
  shutdown_loop oracle fuel 0 alive 0

/-! ## ProcessorChain (`bowline/models/chain.py`) -/

/-- `bowline.models.chain.ProcessorChain`: an ordered list of processors. -/
structure ProcessorChain where
  processors : List Processor
  deriving DecidableEq

/-- The loop of `ProcessorChain._build_processor_chain` from index 1 on:
for each processor after the first, check
`type(previous.get_output_model()) is not type(previous.get_input_model())`
and raise on mismatch, then set the previous processor's sole output queue
as this processor's input queue. -/
def chainBuildAux : Processor → List Processor → Except PyErr (List Processor)
  | prev, [] => .ok [prev]
  | prev, p :: rest =>
    if !pyTypeIs prev.output_model prev.input_model then
      .error (.valueError "The output type of the previous Processor does not match the input type of this Processor")
    else
      match prev.get_output_queue with
      | .error e => .error e
      | .ok oq =>
        match chainBuildAux (p.set_input_queue oq) rest with
        | .error e => .error e
        | .ok tail => .ok (prev :: tail)

/-- `ProcessorChain._build_processor_chain`. -/
def chainBuild (ps : List Processor) : Except PyErr (List Processor) :=
  match ps with
  | [] => .error (.valueError "No processors have been added to the chain. Nothing to build.")
  | p :: rest => chainBuildAux p rest

/-- `processor.start()` applied to every processor in list order, stopping
at the first error. -/
def startAll : List Processor → Except PyErr (List Processor)
  | [] => .ok []
  | p :: rest =>
    match p.start with
    | .error e => .error e
    | .ok p' =>
      match startAll rest with
      | .error e => .error e
      | .ok tail => .ok (p' :: tail)

/-- `ProcessorChain.start`: fails on an empty chain, wires the chain, then
starts every processor. -/
def ProcessorChain.start (c : ProcessorChain) : Except PyErr ProcessorChain :=
  match c.processors with
  | [] => .error (.valueError "No processors have been added to the chain. Nothing to start.")
  | _ =>
    match chainBuild c.processors with
    | .error e => .error e
    | .ok built =>
      match startAll built with
      | .error e => .error e
      | .ok started => .ok { processors := started }

/-- `ProcessorChain.push_input`: the pushed value carries the tag `vty` of
its pydantic class (`type(input)`). -/
def ProcessorChain.push_input {α : Type} (c : ProcessorChain) (st : QStore α)
    (vty : ModelTy) (v : α) : Except PyErr (QStore α) :=
  match c.processors with
  | [] => .error (.valueError "There are no processors in the chain. You must add processors before you can push data.")
  | p :: _ =>
    if !(some vty == p.input_model) then
      .error (.valueError "Input is of the wrong type for the first processor")
    else p.push_input st v

/-- `ProcessorChain.get_output`: delegates to `self.processors[-1]`; on an
empty chain the `[-1]` subscript raises `IndexError`. -/
def ProcessorChain.get_output {α : Type} (c : ProcessorChain) (st : QStore α) :
    Except PyErr (Option (Result α) × QStore α) :=
  match c.processors.getLast? with
  | none => .error .indexError
  | some p => .ok (p.get_output st)

/-- `ProcessorChain.has_output`: delegates to `self.processors[-1]`; on an
empty chain the `[-1]` subscript raises `IndexError`. -/
def ProcessorChain.has_output {α : Type} (c : ProcessorChain) (st : QStore α) :
    Except PyErr Bool :=
  match c.processors.getLast? with
  | none => .error .indexError
  | some p => .ok (p.has_output st)

/-! ## ProcessorGraph (`bowline/models/graph.py`) -/

/-- The `_processor_graph` ordered dictionary: processors are identified by
`Nat` identifiers (Python object identity), each key mapped to the ordered
list of its children, keys in insertion order. -/
abbrev Adj := List (Nat × List Nat)

/-- The keys of the adjacency dictionary, in insertion order. -/
def keysOf (g : Adj) : List Nat :=
  g.map (fun e => e.1)

/-- The child list associated with key `p` (empty when `p` is not a key). -/
def childrenOf (g : Adj) (p : Nat) : List Nat :=
  ((g.find? (fun e => e.1 == p)).map (fun e => e.2)).getD []

/-- `self._processor_graph[previous_processor].append(new_processor)`. -/
def appendChild (g : Adj) (p c : Nat) : Adj :=
  g.map (fun e => if e.1 == p then (e.1, e.2 ++ [c]) else e)

/-- `ProcessorGraph.add_processor` restricted to its effect on the
adjacency dictionary. -/
def add_processor (g : Adj) (newp : Nat) (prev : Option Nat) :
    Except PyErr Adj :=
  match prev with
  | none =>
    if !g.isEmpty then
      .error (.valueError "ProcessorGraph already contains one or more Processors. You must provide a previous processor to link it to.")
    else if newp ∈ keysOf g then .ok g else .ok (g ++ [(newp, [])])
  | some p =>
    if p ∉ keysOf g then
      .error (.valueError "previous processor has not been added to the ProcessorGraph.")
    else if newp ∈ childrenOf g p then
      .error (.valueError "new processor is already linked to the previous processor.")
    else
      let g1 := appendChild g p newp
      if newp ∈ keysOf g1 then .ok g1 else .ok (g1 ++ [(newp, [])])

/-- The (parent, child) edges of the adjacency dictionary, in the order
`_build_processor_chain` walks them. -/
def edgeList (adj : Adj) : List (Nat × Nat) :=
  (adj.map (fun e => e.2.map (fun t => (e.1, t)))).flatten

/-- One iteration of the inner loop of
`ProcessorGraph._build_processor_chain`: validate the edge with
`type(source.get_output_model()) is not type(target.get_input_model())`,
create a fresh queue, attach it to the source with `add_output_queue` and
make it the target's input queue. -/
def graph_build_edge {α : Type} (procs : List Processor) (st : QStore α)
    (s t : Nat) : Except PyErr (List Processor × QStore α) :=
  let sp := procs.getD s emptyProc
  let tp := procs.getD t emptyProc
  if !pyTypeIs sp.output_model tp.input_model then
    .error (.valueError "Target Processor expected a different type than the Source Processor provides")
  else
    let r := qalloc st
    match sp.add_output_queue r.2 with
    | .error e => .error e
    | .ok sp1 =>
      let procs1 := procs.set s sp1
      let tp1 := (procs1.getD t emptyProc).set_input_queue (some r.2)
      .ok (procs1.set t tp1, r.1)

/-- `ProcessorGraph._build_processor_chain`: walk every edge in order. -/
def build_edges {α : Type} (procs : List Processor) (st : QStore α) :
    List (Nat × Nat) → Except PyErr (List Processor × QStore α)
  | [] => .ok (procs, st)
  | e :: rest =>
    match graph_build_edge procs st e.1 e.2 with
    | .error err => .error err
    | .ok r => build_edges r.1 r.2 rest

/-- `processor.start()` applied to the processors named by `ids`, in
order. -/
def startByIds (procs : List Processor) : List Nat → Except PyErr (List Processor)
  | [] => .ok procs
  | i :: rest =>
    match (procs.getD i emptyProc).start with
    | .error e => .error e
    | .ok p' => startByIds (procs.set i p') rest

/-- `bowline.models.graph.ProcessorGraph`: the processor store (identifier
= index), the adjacency dictionary and the round-robin cursor
`_current_terminal_processor_index` (initially `-1`). -/
structure ProcessorGraph where
  procs : List Processor
  adj : Adj
  cursor : Int
  deriving DecidableEq

/-- `ProcessorGraph._get_terminal_processors`: keys whose child list is
empty, in key order. -/
def ProcessorGraph.terminalIds (g : ProcessorGraph) : List Nat :=
  (g.adj.filter (fun e => e.2.isEmpty)).map (fun e => e.1)

/-- The cursor update of `ProcessorGraph._get_next_terminal_processor`:
increment, wrapping to `0` when the incremented value reaches the number
of terminal processors. -/
def adv (n : Nat) (c : Int) : Int :=
  if c + 1 ≥ (n : Int) then 0 else c + 1

/-- `ProcessorGraph._get_next_terminal_processor`: advance the cursor and
return the terminal processor identifier it now designates. -/
def ProcessorGraph.get_next_terminal (g : ProcessorGraph) :
    ProcessorGraph × Nat :=
  let ts := g.terminalIds
  let c := adv ts.length g.cursor
  ({ g with cursor := c }, ts.getD c.toNat 0)

/-- `ProcessorGraph.has_output`: true iff some terminal processor has
output. -/
def ProcessorGraph.has_output {α : Type} (g : ProcessorGraph) (st : QStore α) :
    Bool :=
  g.terminalIds.any (fun i => (g.procs.getD i emptyProc).has_output st)

/-- The `for _ in range(len(terminal_processors))` loop of
`ProcessorGraph.get_output`: advance to the next terminal processor and
return its output as soon as one has output; `none` after the loop is
exhausted. -/
def get_output_loop {α : Type} (g : ProcessorGraph) (st : QStore α) :
    Nat → Option (Result α) × ProcessorGraph × QStore α
  | 0 => (none, g, st)
  | fuel + 1 =>
    let r := g.get_next_terminal
    let p := r.1.procs.getD r.2 emptyProc
    if p.has_output st then
      let o := p.get_output st
      (o.1, r.1, o.2)
    else get_output_loop r.1 st fuel

/-- `ProcessorGraph.get_output`. -/
def ProcessorGraph.get_output {α : Type} (g : ProcessorGraph) (st : QStore α) :
    Option (Result α) × ProcessorGraph × QStore α :=
  get_output_loop g st g.terminalIds.length

/-- `ProcessorGraph.start`: fails on an empty graph, wires every edge,
then starts every processor in key order. -/
def ProcessorGraph.start {α : Type} (g : ProcessorGraph) (st : QStore α) :
    Except PyErr (ProcessorGraph × QStore α) :=
  if g.adj.isEmpty then
    .error (.valueError "There are no processors in the graph. Nothing to start.")
  else
    match build_edges g.procs st (edgeList g.adj) with
    | .error e => .error e
    | .ok r =>
      match startByIds r.1 (keysOf g.adj) with
      | .error e => .error e
      | .ok procs' => .ok ({ g with procs := procs' }, r.2)

deriving instance DecidableEq for Except

/-! ## Shared lemmas about the queue store -/

theorem getD_set_self {β : Type} (l : List β) (i : Nat) (x d : β)
    (h : i < l.length) : (l.set i x).getD i d = x := by
  induction l generalizing i with
  | nil => simp at h
  | cons a t ih =>
    cases i with
    | zero => rfl
    | succ n =>
      simp only [List.set_cons_succ, List.getD_cons_succ]
      exact ih n (by simpa using h)

theorem getD_set_ne {β : Type} (l : List β) (i j : Nat) (x d : β)
    (h : j ≠ i) : (l.set i x).getD j d = l.getD j d := by
  induction l generalizing i j with
  | nil => simp
  | cons a t ih =>
    cases i with
    | zero =>
      cases j with
      | zero => exact absurd rfl h
      | succ m => rfl
    | succ n =>
      cases j with
      | zero => rfl
      | succ m =>
        simp only [List.set_cons_succ, List.getD_cons_succ]
        exact ih n m (fun hh => h (by rw [hh]))

theorem qput_getD_self {α : Type} (st : QStore α) (q : QueueId) (v : α)
    (h : q < st.length) : (qput st q v).getD q [] = st.getD q [] ++ [v] :=
  getD_set_self st q _ [] h

theorem qput_getD_ne {α : Type} (st : QStore α) (q q' : QueueId) (v : α)
    (h : q' ≠ q) : (qput st q v).getD q' [] = st.getD q' [] :=
  getD_set_ne st q q' _ [] h

/-! ## Concrete sample processors used by the closed theorems -/

/-- Chain stage with declared input class 1 and output class 2. -/
def chainA : Processor :=
  (Processor.init Nat "A" (some 1) (some 2) 1 []).1

/-- Chain stage with declared input class 3 (mismatching `chainA`'s output
class 2) and output class 4. -/
def chainB : Processor :=
  (Processor.init Nat "B" (some 3) (some 4) 1 (Processor.init Nat "A" (some 1) (some 2) 1 []).2).1

/-- Source stage with no input model and output class 2. -/
def chainA2 : Processor :=
  (Processor.init Nat "A2" none (some 2) 1 []).1

/-- Stage with input class 2, exactly matching `chainA2`'s output class. -/
def chainB2 : Processor :=
  (Processor.init Nat "B2" (some 2) none 1 (Processor.init Nat "A2" none (some 2) 1 []).2).1

/-- Two-node graph whose edge is type-mismatched: the root declares output
class 2 while its only child declares input class 3. -/
def mismatchGraph : ProcessorGraph :=
  { procs := [chainA, chainB], adj := [(0, [1]), (1, [])], cursor := -1 }

/-- Queue store after constructing the two processors of
`mismatchGraph`. -/
def mismatchStore : QStore Nat :=
  (Processor.init Nat "B" (some 3) (some 4) 1 (Processor.init Nat "A" (some 1) (some 2) 1 []).2).2

/-! ## C1 -/

/-- C1: the claim says `start()` raises a configuration error, before any
worker is spawned, exactly when some wired pair has the producer's
declared output type differ from the consumer's declared input type. The
code refutes both directions. `ProcessorChain._build_processor_chain`
compares `type(previous.get_output_model())` with
`type(previous.get_input_model())` — the previous stage's own input, not
the next stage's — and `ProcessorGraph._build_processor_chain` compares
`type(source.get_output_model())` with `type(target.get_input_model())`;
since `type(_)` of every pydantic model class is the shared metaclass,
each test passes whenever both attributes are classes, however different.
Concretely: the chain `[chainA, chainB]` and the graph `mismatchGraph`
have a wired pair with output class 2 against input class 3, yet both
builds succeed and the graph `start()` spawns workers; conversely the
chain `[chainA2, chainB2]` has equal wired types (class 2 on both sides of
its only adjacent pair), yet the build raises because `chainA2` has no
input model. -/
theorem start_type_validation_divergence :
    chainA.output_model = some 2
  ∧ chainB.input_model = some 3
  ∧ (chainBuild [chainA, chainB]).isOk = true
  ∧ (∃ g st, ProcessorGraph.start mismatchGraph mismatchStore = .ok (g, st)
      ∧ ∀ p ∈ g.procs, p.processes = 1)
  ∧ chainA2.output_model = some 2
  ∧ chainB2.input_model = some 2
  ∧ ∃ m, chainBuild [chainA2, chainB2] = .error (.valueError m) := by
  refine ⟨rfl, rfl, rfl, ⟨?_, ?_, ?_⟩, rfl, rfl, ?_⟩
  · exact (ProcessorGraph.start mismatchGraph mismatchStore).toOption.get (by decide) |>.1
  · exact (ProcessorGraph.start mismatchGraph mismatchStore).toOption.get (by decide) |>.2
  · constructor
    · decide
    · decide
  · exact ⟨_, rfl⟩

/-! ## C10 -/

/-- The empty processor chain. -/
def emptyChain : ProcessorChain := { processors := [] }

/-- C10: on the empty chain, `get_output()` and `has_output()` raise an
`IndexError` from the unguarded `self.processors[-1]` subscript, while
`push_input()` and `start()` raise the guarded `ValueError` configuration
errors. -/
theorem empty_chain_output_index_error :
    ProcessorChain.get_output (α := Nat) emptyChain [] = .error .indexError
  ∧ ProcessorChain.has_output (α := Nat) emptyChain [] = .error .indexError
  ∧ ProcessorChain.push_input (α := Nat) emptyChain [] 1 5
      = .error (.valueError "There are no processors in the chain. You must add processors before you can push data.")
  ∧ ProcessorChain.start emptyChain
      = .error (.valueError "No processors have been added to the chain. Nothing to start.") := by
  exact ⟨rfl, rfl, rfl, rfl⟩

/-! ## C9 -/

/-- C9 counterexample: the claim says no input or output queue exists
before `start()`; but `Processor.__init__` calls `_setup`, which creates
the input queue and one default output queue as soon as the corresponding
models are declared — here a freshly constructed, never started processor
already owns queue 0 as input queue and queue 1 as sole output queue. -/
theorem queues_exist_before_start_cex :
    (Processor.init Nat "p" (some 7) (some 8) 1 []).1.inputQueue ≠ none
  ∧ (Processor.init Nat "p" (some 7) (some 8) 1 []).1.outputQueues ≠ []
  ∧ (Processor.init Nat "p" (some 7) (some 8) 1 []).1.processes = 0 := by
  exact ⟨by decide, by decide, rfl⟩

/-- C9 amended: construction itself materializes queues — `__init__` (via
`_setup`) creates the input queue exactly when an input model is declared
and exactly one default output queue when an output model is declared,
while workers are spawned only at `start()`. -/
theorem queues_created_at_construction (α : Type) (name : String)
    (im om : Option ModelTy) (n : Nat) (st : QStore α) :
    (Processor.init α name im om n st).1.inputQueue.isSome = im.isSome
  ∧ (Processor.init α name im om n st).1.outputQueues.length
      = (if om.isSome then 1 else 0)
  ∧ (Processor.init α name im om n st).1.processes = 0 := by
  unfold Processor.init
  cases im <;> cases om <;> simp

/-! ## C6 -/

/-- C6: `push_input(value)` raises (a `ValueError` configuration error) if
and only if no input model was declared or no input queue exists;
otherwise it enqueues `value` at the tail of the input queue, leaving
every other queue unchanged. -/
theorem push_input_characterization {α : Type} (p : Processor) (st : QStore α)
    (v : α) :
    ((p.push_input st v).isOk ↔ (p.input_model.isSome ∧ p.inputQueue.isSome))
  ∧ (∀ e, p.push_input st v = .error e → ∃ m, e = .valueError m)
  ∧ (∀ iq, p.input_model.isSome → p.inputQueue = some iq →
      p.push_input st v = .ok (qput st iq v)
      ∧ (iq < st.length → (qput st iq v).getD iq [] = st.getD iq [] ++ [v])
      ∧ ∀ q, q ≠ iq → (qput st iq v).getD q [] = st.getD q []) := by
  unfold Processor.push_input
  refine ⟨?_, ?_, ?_⟩
  · cases him : p.input_model with
    | none => simp [him, Except.isOk, Except.toBool]
    | some m =>
      cases hiq : p.inputQueue with
      | none => simp [him, hiq, Except.isOk, Except.toBool]
      | some q => simp [him, hiq, Except.isOk, Except.toBool]
  · intro e he
    cases him : p.input_model with
    | none => simp [him] at he; exact ⟨_, he.symm⟩
    | some m =>
      cases hiq : p.inputQueue with
      | none => simp [him, hiq] at he; exact ⟨_, he.symm⟩
      | some q => simp [him, hiq] at he
  · intro iq him hiq
    rw [Option.isSome_iff_exists] at him
    obtain ⟨m, him⟩ := him
    refine ⟨by simp [him, hiq], fun h => qput_getD_self st iq v h,
      fun q hq => qput_getD_ne st iq q v hq⟩

/-- C6 witness: a freshly constructed processor with declared input class
accepts a push, appending the value to its previously empty input
queue. -/
theorem push_input_characterization_witness :
    chainA.input_model.isSome = true
  ∧ chainA.inputQueue = some 0
  ∧ Processor.push_input (α := Nat) chainA [[], []] 5 = .ok [[5], []] := by
  refine ⟨by decide, by decide, ?_⟩
  have h := ((push_input_characterization (α := Nat) chainA [[], []] 5).2.2 0
    (by decide) (by decide)).1
  exact h

/-! ## C5 -/

/-- Behind the scan of `get_output`: skipping an all-empty prefix reaches
the first non-empty queue. -/
theorem getFirstOutput_skip {α : Type} (name : String) (st : QStore α)
    (pre : List QueueId) (q : QueueId) (post : List QueueId)
    (hpre : ∀ q' ∈ pre, qempty st q' = true) :
    getFirstOutput name (pre ++ q :: post) st
      = getFirstOutput name (q :: post) st := by
  induction pre with
  | nil => rfl
  | cons a t ih =>
    have ha : qempty st a = true := hpre a (List.mem_cons_self a t)
    simp only [List.cons_append, getFirstOutput, ha, if_true]
    exact ih (fun q' hq' => hpre q' (List.mem_cons_of_mem a hq'))

/-- C5: `get_output()` returns `None` (store untouched) when there are no
output queues or all are empty; otherwise it pops exactly one item — the
head of the first non-empty output queue in scan order — wraps it in
`Result\x7bprocessor := name, output := item\x7d`, and leaves every other
queue unchanged. -/
theorem get_output_characterization {α : Type} (p : Processor)
    (st : QStore α) :
    ((p.outputQueues = [] ∨ ∀ q ∈ p.outputQueues, qempty st q = true) →
      p.get_output st = (none, st))
  ∧ (∀ pre q post, p.outputQueues = pre ++ q :: post →
      (∀ q' ∈ pre, qempty st q' = true) → qempty st q = false →
      ∃ x xs, st.getD q [] = x :: xs
        ∧ p.get_output st = (some { processor := p.name, output := x }, st.set q xs)
        ∧ ∀ q', q' ≠ q → (st.set q xs).getD q' [] = st.getD q' []) := by
  constructor
  · intro h
    unfold Processor.get_output
    rcases h with h | h
    · simp [h]
    · have : p.outputQueues.all (fun q => qempty st q) = true := by
        rw [List.all_eq_true]; exact h
      simp [this]
  · intro pre q post hdec hpre hq
    rcases hcont : st.getD q [] with _ | ⟨x, xs⟩
    · exfalso
      unfold qempty at hq
      rw [hcont] at hq
      simp at hq
    · refine ⟨x, xs, rfl, ?_, fun q' hq' => getD_set_ne st q q' xs [] hq'⟩
      have hne : p.outputQueues.isEmpty = false := by
        rw [hdec]; cases pre <;> rfl
      have hnall : p.outputQueues.all (fun q => qempty st q) = false := by
        rw [List.all_eq_false]
        exact ⟨q, by rw [hdec]; exact List.mem_append_right _ (List.mem_cons_self q post), by simp [hq]⟩
      have hget : qget? st q = some (x, st.set q xs) := by
        unfold qget?; rw [hcont]
      have hscan : getFirstOutput p.name p.outputQueues st
          = (some { processor := p.name, output := x }, st.set q xs) := by
        rw [hdec, getFirstOutput_skip p.name st pre q post hpre]
        simp [getFirstOutput, hq, hget]
      simp [Processor.get_output, hne, hnall, hscan]

/-- C5 witness: a processor with three output queues, the first empty,
pops the head of the second and leaves the third untouched. -/
theorem get_output_characterization_witness :
    Processor.get_output (α := Nat)
      { name := "p", input_model := none, output_model := some 1,
        instances := 1, inputQueue := none, outputQueues := [0, 1, 2],
        processes := 0 } [[], [7, 8], [9]]
      = (some { processor := "p", output := 7 }, [[], [8], [9]]) := by
  have h := (get_output_characterization (α := Nat)
    { name := "p", input_model := none, output_model := some 1,
      instances := 1, inputQueue := none, outputQueues := [0, 1, 2],
      processes := 0 } [[], [7, 8], [9]]).2 [0] 1 [2] rfl
    (by intro q' hq'; simp at hq'; subst hq'; rfl) rfl
  obtain ⟨x, xs, hx, hout, -⟩ := h
  have hx' : x = 7 ∧ xs = [8] := by
    have : ([7, 8] : List Nat) = x :: xs := hx
    cases this; exact ⟨rfl, rfl⟩
  rw [hout, hx'.1, hx'.2]
  rfl

/-! ## C7 -/

theorem keysOf_cons (e : Nat × List Nat) (t : Adj) :
    keysOf (e :: t) = e.1 :: keysOf t := rfl

theorem add_processor_some (g : Adj) (newp p : Nat) :
    add_processor g newp (some p)
      = if p ∉ keysOf g then
          .error (.valueError "previous processor has not been added to the ProcessorGraph.")
        else if newp ∈ childrenOf g p then
          .error (.valueError "new processor is already linked to the previous processor.")
        else
          if newp ∈ keysOf (appendChild g p newp) then .ok (appendChild g p newp)
          else .ok (appendChild g p newp ++ [(newp, [])]) := rfl

theorem childrenOf_cons_pos (e : Nat × List Nat) (t : Adj) (x : Nat)
    (h : e.1 = x) : childrenOf (e :: t) x = e.2 := by
  unfold childrenOf
  rw [List.find?_cons_of_pos _ (by simp [h])]
  rfl

theorem childrenOf_cons_neg (e : Nat × List Nat) (t : Adj) (x : Nat)
    (h : ¬e.1 = x) : childrenOf (e :: t) x = childrenOf t x := by
  unfold childrenOf
  rw [List.find?_cons_of_neg _ (by simp [h])]

theorem appendChild_cons (e : Nat × List Nat) (t : Adj) (p c : Nat) :
    appendChild (e :: t) p c
      = (if e.1 = p then (e.1, e.2 ++ [c]) else e) :: appendChild t p c := by
  unfold appendChild
  rw [List.map_cons]
  by_cases h : e.1 = p
  · rw [if_pos (by simpa using h), if_pos h]
  · rw [if_neg (by simpa using h), if_neg h]

theorem keysOf_appendChild (g : Adj) (p c : Nat) :
    keysOf (appendChild g p c) = keysOf g := by
  induction g with
  | nil => rfl
  | cons e t ih =>
    have h1 : (if e.1 = p then (e.1, e.2 ++ [c]) else e).1 = e.1 := by
      by_cases h : e.1 = p
      · rw [if_pos h]
      · rw [if_neg h]
    rw [appendChild_cons, keysOf_cons, keysOf_cons, h1, ih]

theorem childrenOf_not_mem (g : Adj) (x : Nat) (h : x ∉ keysOf g) :
    childrenOf g x = [] := by
  induction g with
  | nil => rfl
  | cons e t ih =>
    have hx : ¬(e.1 = x) := by
      intro he; exact h (by rw [keysOf_cons, he]; exact List.mem_cons_self x _)
    rw [childrenOf_cons_neg e t x hx]
    exact ih (fun hm => h (by rw [keysOf_cons]; exact List.mem_cons_of_mem _ hm))

theorem mem_keysOf_tail (e : Nat × List Nat) (t : Adj) (x : Nat)
    (h : x ∈ keysOf (e :: t)) (hne : ¬e.1 = x) : x ∈ keysOf t := by
  rw [keysOf_cons] at h
  rcases List.mem_cons.mp h with h1 | h1
  · exact absurd h1.symm hne
  · exact h1

theorem childrenOf_appendChild_self (g : Adj) (p c : Nat)
    (h : p ∈ keysOf g) :
    childrenOf (appendChild g p c) p = childrenOf g p ++ [c] := by
  induction g with
  | nil => simp [keysOf] at h
  | cons e t ih =>
    rw [appendChild_cons]
    by_cases he : e.1 = p
    · rw [if_pos he, childrenOf_cons_pos _ _ p he,
        childrenOf_cons_pos _ _ p (by simpa using he)]
    · rw [if_neg he, childrenOf_cons_neg e t p he,
        childrenOf_cons_neg e _ p he]
      exact ih (mem_keysOf_tail e t p h he)

theorem childrenOf_appendChild_ne (g : Adj) (p q c : Nat) (h : q ≠ p) :
    childrenOf (appendChild g p c) q = childrenOf g q := by
  induction g with
  | nil => rfl
  | cons e t ih =>
    rw [appendChild_cons]
    by_cases he : e.1 = p
    · have hq : ¬(if e.1 = p then (e.1, e.2 ++ [c]) else e).1 = q := by
        rw [if_pos he, he]; exact fun hh => h hh.symm
      rw [childrenOf_cons_neg _ _ q hq,
        childrenOf_cons_neg e t q (by rw [he]; exact fun hh => h hh.symm)]
      exact ih
    · rw [if_neg he]
      by_cases hq : e.1 = q
      · rw [childrenOf_cons_pos _ _ q hq, childrenOf_cons_pos e t q hq]
      · rw [childrenOf_cons_neg _ _ q hq, childrenOf_cons_neg e t q hq]
        exact ih

theorem childrenOf_append_left (g : Adj) (e : Nat × List Nat) (x : Nat)
    (h : x ∈ keysOf g) : childrenOf (g ++ [e]) x = childrenOf g x := by
  induction g with
  | nil => simp [keysOf] at h
  | cons e0 t ih =>
    rw [List.cons_append]
    by_cases he : e0.1 = x
    · rw [childrenOf_cons_pos _ _ x he, childrenOf_cons_pos e0 t x he]
    · rw [childrenOf_cons_neg _ _ x he, childrenOf_cons_neg e0 t x he]
      exact ih (mem_keysOf_tail e0 t x h he)

theorem childrenOf_append_new (g : Adj) (x : Nat) (cs : List Nat)
    (h : x ∉ keysOf g) : childrenOf (g ++ [(x, cs)]) x = cs := by
  induction g with
  | nil => exact childrenOf_cons_pos (x, cs) [] x rfl
  | cons e0 t ih =>
    have he : ¬(e0.1 = x) := by
      intro hh; exact h (by rw [keysOf_cons, hh]; exact List.mem_cons_self x _)
    rw [List.cons_append, childrenOf_cons_neg e0 _ x he]
    exact ih (fun hm => h (by rw [keysOf_cons]; exact List.mem_cons_of_mem _ hm))

/-- In a Nodup-keys adjacency dictionary, every entry is the first entry
with its key, so `childrenOf` retrieves exactly its child list. -/
theorem mem_childrenOf_of_nodup (g : Adj) (e : Nat × List Nat)
    (hnd : (keysOf g).Nodup) (he : e ∈ g) : childrenOf g e.1 = e.2 := by
  induction g with
  | nil => simp at he
  | cons e0 t ih =>
    rcases List.mem_cons.mp he with he1 | he1
    · rw [he1]
      exact childrenOf_cons_pos e0 t e0.1 rfl
    · have hne : ¬(e0.1 = e.1) := by
        intro hh
        have hm : e.1 ∈ keysOf t := List.mem_map_of_mem (fun x => x.1) he1
        rw [keysOf_cons] at hnd
        exact (List.nodup_cons.mp hnd).1 (hh ▸ hm)
      rw [childrenOf_cons_neg e0 t e.1 hne]
      exact ih (by rw [keysOf_cons] at hnd; exact (List.nodup_cons.mp hnd).2) he1

/-- C7: `add_processor(new, parent)` — a parentless call succeeds exactly
on the empty graph and installs `new` as sole key; a parented call
succeeds exactly when the parent is already a key and does not already
list `new` as a child; a successful parented call appends the edge,
registers `new` as a key with empty child list when absent, leaves every
other key's child list unchanged, and preserves duplicate-free child
lists. -/
theorem add_processor_characterization (g : Adj) (newp : Nat) :
    ((add_processor g newp none).isOk ↔ g = [])
  ∧ add_processor [] newp none = .ok [(newp, [])]
  ∧ (∀ p, ((add_processor g newp (some p)).isOk
      ↔ (p ∈ keysOf g ∧ newp ∉ childrenOf g p)))
  ∧ (∀ p g', (keysOf g).Nodup → add_processor g newp (some p) = .ok g' →
      childrenOf g' p = childrenOf g p ++ [newp]
      ∧ (∀ q, q ≠ p → childrenOf g' q = childrenOf g q)
      ∧ keysOf g' = keysOf g ++ (if newp ∈ keysOf g then [] else [newp])
      ∧ ((∀ e ∈ g, e.2.Nodup) → ∀ e ∈ g', e.2.Nodup)) := by
  refine ⟨?_, rfl, ?_, ?_⟩
  · cases g with
    | nil => simp [add_processor, keysOf, Except.isOk, Except.toBool]
    | cons e t => simp [add_processor, Except.isOk, Except.toBool]
  · intro p
    rw [add_processor_some]
    by_cases hp : p ∈ keysOf g
    · rw [if_neg (by simpa using hp)]
      by_cases hc : newp ∈ childrenOf g p
      · rw [if_pos hc]
        simp [Except.isOk, Except.toBool, hp, hc]
      · rw [if_neg hc]
        by_cases hk : newp ∈ keysOf (appendChild g p newp)
        · rw [if_pos hk]; simp [Except.isOk, Except.toBool, hp, hc]
        · rw [if_neg hk]; simp [Except.isOk, Except.toBool, hp, hc]
    · rw [if_pos (by simpa using hp)]
      simp [Except.isOk, Except.toBool, hp]
  · intro p g' hnd hok
    rw [add_processor_some] at hok
    by_cases hp : p ∈ keysOf g
    · rw [if_neg (by simpa using hp)] at hok
      by_cases hc : newp ∈ childrenOf g p
      · rw [if_pos hc] at hok; exact absurd hok (by simp)
      · rw [if_neg hc] at hok
        by_cases hk : newp ∈ keysOf (appendChild g p newp)
        · rw [if_pos hk] at hok
          have hg' : g' = appendChild g p newp := by
            injection hok with h; exact h.symm
          subst hg'
          have hkg : newp ∈ keysOf g := by rwa [keysOf_appendChild] at hk
          refine ⟨childrenOf_appendChild_self g p newp hp,
            fun q hq => childrenOf_appendChild_ne g p q newp hq,
            by rw [keysOf_appendChild, if_pos hkg, List.append_nil],
            ?_⟩
          intro hall e he
          unfold appendChild at he
          rw [List.mem_map] at he
          obtain ⟨e0, he0, heq⟩ := he
          by_cases h0 : e0.1 = p
          · rw [if_pos (by simpa using h0)] at heq
            rw [← heq]
            refine List.Nodup.append (hall e0 he0) (List.nodup_singleton newp) ?_
            intro a ha hb
            rw [List.mem_singleton] at hb
            subst hb
            have : childrenOf g e0.1 = e0.2 := mem_childrenOf_of_nodup g e0 hnd he0
            rw [h0] at this
            exact hc (this ▸ ha)
          · rw [if_neg (by simpa using h0)] at heq
            rw [← heq]; exact hall e0 he0
        · rw [if_neg hk] at hok
          have hg' : g' = appendChild g p newp ++ [(newp, [])] := by
            injection hok with h; exact h.symm
          subst hg'
          have hkg : newp ∉ keysOf g := by rwa [keysOf_appendChild] at hk
          have hpk : p ∈ keysOf (appendChild g p newp) := by
            rwa [keysOf_appendChild]
          refine ⟨?_, ?_, ?_, ?_⟩
          · rw [childrenOf_append_left _ _ _ hpk,
              childrenOf_appendChild_self g p newp hp]
          · intro q hq
            by_cases hqk : q ∈ keysOf (appendChild g p newp)
            · rw [childrenOf_append_left _ _ _ hqk,
                childrenOf_appendChild_ne g p q newp hq]
            · rw [keysOf_appendChild] at hqk
              rw [childrenOf_not_mem g q hqk]
              by_cases hqn : q = newp
              · subst hqn
                rw [childrenOf_append_new _ _ _ (by rwa [keysOf_appendChild])]
              · have hq2 : q ∉ keysOf (appendChild g p newp ++ [(newp, [])]) := by
                  rw [show keysOf (appendChild g p newp ++ [(newp, [])])
                        = keysOf (appendChild g p newp) ++ keysOf [(newp, [])] from
                      List.map_append _ _ _, keysOf_appendChild, List.mem_append]
                  rintro (hm | hm)
                  · exact hqk hm
                  · exact hqn (List.mem_singleton.mp hm)
                exact childrenOf_not_mem _ q hq2
          · rw [show keysOf (appendChild g p newp ++ [(newp, [])])
                  = keysOf (appendChild g p newp) ++ keysOf [(newp, [])] from
                List.map_append _ _ _,
              keysOf_appendChild, if_neg hkg]
            rfl
          · intro hall e he
            rw [List.mem_append] at he
            rcases he with he | he
            · unfold appendChild at he
              rw [List.mem_map] at he
              obtain ⟨e0, he0, heq⟩ := he
              by_cases h0 : e0.1 = p
              · rw [if_pos (by simpa using h0)] at heq
                rw [← heq]
                refine List.Nodup.append (hall e0 he0) (List.nodup_singleton newp) ?_
                intro a ha hb
                rw [List.mem_singleton] at hb
                subst hb
                have : childrenOf g e0.1 = e0.2 := mem_childrenOf_of_nodup g e0 hnd he0
                rw [h0] at this
                exact hc (this ▸ ha)
              · rw [if_neg (by simpa using h0)] at heq
                rw [← heq]; exact hall e0 he0
            · rw [List.mem_singleton] at he
              rw [he]; exact List.nodup_nil
    · rw [if_pos (by simpa using hp)] at hok
      exact absurd hok (by simp)

/-- C7 witness: on the graph `root 0 → \x7b1\x7d`, adding processor 2
under parent 0 succeeds and yields exactly the expected adjacency. -/
theorem add_processor_characterization_witness :
    add_processor [(0, [1]), (1, [])] 2 (some 0) = .ok [(0, [1, 2]), (1, []), (2, [])]
  ∧ childrenOf [(0, [1, 2]), (1, []), (2, [])] 0 = childrenOf [(0, [1]), (1, [])] 0 ++ [2]
  ∧ keysOf [(0, [1, 2]), (1, []), (2, [])] = [0, 1, 2] := by
  have h := (add_processor_characterization [(0, [1]), (1, [])] 2).2.2.2 0
    [(0, [1, 2]), (1, []), (2, [])] (by decide) (by decide)
  exact ⟨by decide, h.1, by decide⟩

/-! ## C4 -/

theorem pushResult_none {α : Type} (oqs : List QueueId) (st : QStore α) :
    pushResult oqs (none : Option α) st = st := by
  cases oqs <;> rfl

theorem sum_set_getD_add (cs : List Nat) (j k : Nat) (h : j < cs.length) :
    (cs.set j (cs.getD j 0 + k)).sum = cs.sum + k := by
  induction cs generalizing j with
  | nil => simp at h
  | cons a t ih =>
    cases j with
    | zero =>
      simp only [List.getD_cons_zero, List.set_cons_zero, List.sum_cons]
      omega
    | succ n =>
      simp only [List.getD_cons_succ, List.set_cons_succ, List.sum_cons]
      rw [ih n (by simpa using h)]
      omega

theorem run_sched_cons {α : Type} (target : Option α → Except Unit (Option α))
    (inq : Option QueueId) (oqs : List QueueId) (j : Nat) (rest : List Nat)
    (st : QStore α) (cs : List Nat) :
    run_sched target inq oqs (j :: rest) (st, cs)
      = run_sched target inq oqs rest
          ((run_step target inq oqs ⟨st, cs.getD j 0⟩).store,
           cs.set j (run_step target inq oqs ⟨st, cs.getD j 0⟩).counter) := rfl

/-- Conservation invariant of the worker pool with an always-raising
target function: under any interleaving, items leave the input queue at
the same rate the per-instance counters rise, and no other queue is
touched. -/
theorem run_sched_raising {α : Type}
    (target : Option α → Except Unit (Option α)) (iq : QueueId)
    (oqs : List QueueId) (hraise : ∀ y, target (some y) = .error ())
    (σ : List Nat) (st : QStore α) (cs : List Nat)
    (hσ : ∀ j ∈ σ, j < cs.length) :
    (run_sched target (some iq) oqs σ (st, cs)).2.sum
        + ((run_sched target (some iq) oqs σ (st, cs)).1.getD iq []).length
      = cs.sum + (st.getD iq []).length
    ∧ (run_sched target (some iq) oqs σ (st, cs)).2.length = cs.length
    ∧ ∀ q, q ≠ iq →
        (run_sched target (some iq) oqs σ (st, cs)).1.getD q []
          = st.getD q [] := by
  induction σ generalizing st cs with
  | nil => exact ⟨rfl, rfl, fun q _ => rfl⟩
  | cons j rest ih =>
    have hj : j < cs.length := hσ j (List.mem_cons_self j rest)
    rcases hcase : st.getD iq [] with _ | ⟨x, xs⟩
    · have hw : run_step target (some iq) oqs ⟨st, cs.getD j 0⟩
          = ⟨st, cs.getD j 0⟩ := by
        simp only [run_step, qget?, hcase]
      have hstep : run_sched target (some iq) oqs (j :: rest) (st, cs)
          = run_sched target (some iq) oqs rest (st, cs.set j (cs.getD j 0)) := by
        rw [run_sched_cons, hw]
      have hlen : (cs.set j (cs.getD j 0)).length = cs.length :=
        List.length_set cs j _
      obtain ⟨h1, h2, h3⟩ := ih st (cs.set j (cs.getD j 0))
        (fun j' hj' => by rw [hlen]; exact hσ j' (List.mem_cons_of_mem j hj'))
      have hsum : (cs.set j (cs.getD j 0)).sum = cs.sum := by
        have := sum_set_getD_add cs j 0 hj
        simpa using this
      rw [hstep]
      exact ⟨by rw [h1, hsum, hcase], by rw [h2, hlen], h3⟩
    · have hw : run_step target (some iq) oqs ⟨st, cs.getD j 0⟩
          = ⟨st.set iq xs, cs.getD j 0 + 1⟩ := by
        simp only [run_step, qget?, hcase, hraise x, pushResult_none]
      have hstep : run_sched target (some iq) oqs (j :: rest) (st, cs)
          = run_sched target (some iq) oqs rest
              (st.set iq xs, cs.set j (cs.getD j 0 + 1)) := by
        rw [run_sched_cons, hw]
      have hlen : (cs.set j (cs.getD j 0 + 1)).length = cs.length :=
        List.length_set cs j _
      obtain ⟨h1, h2, h3⟩ := ih (st.set iq xs) (cs.set j (cs.getD j 0 + 1))
        (fun j' hj' => by rw [hlen]; exact hσ j' (List.mem_cons_of_mem j hj'))
      have hsum : (cs.set j (cs.getD j 0 + 1)).sum = cs.sum + 1 :=
        sum_set_getD_add cs j 1 hj
      have hiq : (st.set iq xs).getD iq [] = xs := by
        have hlt : iq < st.length := by
          by_contra hge
          have hge2 : st.length ≤ iq := Nat.le_of_not_lt hge
          rw [List.getD_eq_default st [] hge2] at hcase
          exact List.noConfusion hcase
        exact getD_set_self st iq xs [] hlt
      rw [hstep]
      refine ⟨?_, by rw [h2, hlen], ?_⟩
      · rw [h1, hsum, hiq, List.length_cons]
        omega
      · intro q hq
        rw [h3 q hq, getD_set_ne st iq q xs [] hq]

/-- C4: a worker iteration that dequeues an item whose processing raises
catches the exception: the iteration just pops the item and increments the
counter — nothing is enqueued anywhere (part 1). Consequently, under any
interleaving of the instances of a processor whose target function always
raises, the summed counters always equal the number of items drained from
the input queue (reaching `M` once the `M` pushed inputs are drained),
while `has_output()` stays false (part 2). -/
theorem worker_exception_isolation {α : Type}
    (target : Option α → Except Unit (Option α)) (iq : QueueId)
    (oqs : List QueueId) :
    (∀ (w : WorkerView α) (x : α) (xs : List α) (e : Unit),
      w.store.getD iq [] = x :: xs → target (some x) = .error e →
      run_step target (some iq) oqs w
        = { store := w.store.set iq xs, counter := w.counter + 1 })
  ∧ (∀ (σ : List Nat) (st : QStore α) (cs : List Nat) (p : Processor),
      (∀ y, target (some y) = .error ()) →
      (∀ j ∈ σ, j < cs.length) →
      p.outputQueues = oqs → iq ∉ oqs →
      (∀ q ∈ oqs, qempty st q = true) →
      ((run_sched target (some iq) oqs σ (st, cs)).2.sum
          + ((run_sched target (some iq) oqs σ (st, cs)).1.getD iq []).length
        = cs.sum + (st.getD iq []).length)
      ∧ p.has_output (run_sched target (some iq) oqs σ (st, cs)).1 = false) := by
  constructor
  · intro w x xs e hx htgt
    simp only [run_step, qget?, hx, htgt, pushResult_none]
  · intro σ st cs p hraise hσ hoq hiq hempty
    obtain ⟨h1, _, h3⟩ := run_sched_raising target iq oqs hraise σ st cs hσ
    refine ⟨h1, ?_⟩
    have hany : (oqs.any fun q =>
        !qempty (run_sched target (some iq) oqs σ (st, cs)).1 q) = false := by
      rw [List.any_eq_false]
      intro q hqo
      have hne : q ≠ iq := fun hh => hiq (hh ▸ hqo)
      have he : qempty st q = true := hempty q hqo
      have hq2 : qempty (run_sched target (some iq) oqs σ (st, cs)).1 q = true := by
        unfold qempty at he ⊢
        rw [h3 q hne]
        exact he
      simp [hq2]
    unfold Processor.has_output
    rw [hoq, hany, Bool.and_false]

/-- C4 witness: three pushed inputs to a single-instance processor whose
target always raises: the counter reaches 3 and `has_output()` is
false. -/
theorem worker_exception_isolation_witness :
    ((run_sched (fun _ => .error ()) (some 0) [1] [0, 0, 0]
        (([[5, 6, 7], []] : QStore Nat), [0])).2.sum
      + ((run_sched (fun _ => .error ()) (some 0) [1] [0, 0, 0]
        (([[5, 6, 7], []] : QStore Nat), [0])).1.getD 0 []).length = 3)
  ∧ Processor.has_output
      { name := "p", input_model := some 1, output_model := some 2,
        instances := 1, inputQueue := some 0, outputQueues := [1],
        processes := 1 }
      (run_sched (fun _ => .error ()) (some 0) [1] [0, 0, 0]
        (([[5, 6, 7], []] : QStore Nat), [0])).1 = false := by
  have h := (worker_exception_isolation (α := Nat) (fun _ => .error ()) 0 [1]).2
    [0, 0, 0] [[5, 6, 7], []] [0]
    { name := "p", input_model := some 1, output_model := some 2,
      instances := 1, inputQueue := some 0, outputQueues := [1],
      processes := 1 }
    (fun _ => rfl) (by intro j hj; simp at hj; subst hj; decide) rfl (by decide)
    (by intro q hq; simp at hq; subst hq; rfl)
  exact ⟨h.1, h.2⟩

/-! ## C8 -/

theorem signalJoin_length (killed : Nat → Bool) (i0 : Nat)
    (alive : List Bool) :
    (signalJoin killed i0 alive).length = alive.length := by
  induction alive generalizing i0 with
  | nil => rfl
  | cons a rest ih =>
    simp only [signalJoin, List.length_cons, ih]

theorem signalJoin_getD (killed : Nat → Bool) (i0 j : Nat)
    (alive : List Bool) :
    (signalJoin killed i0 alive).getD j false
      = (alive.getD j false && !(killed (i0 + j))) := by
  induction alive generalizing i0 j with
  | nil => simp [signalJoin]
  | cons a rest ih =>
    cases j with
    | zero => simp [signalJoin]
    | succ n =>
      simp only [signalJoin, List.getD_cons_succ]
      rw [ih (i0 + 1) n]
      have : i0 + 1 + n = i0 + (n + 1) := by omega
      rw [this]

theorem any_getD_of_any (alive : List Bool)
    (h : alive.any (fun a => a) = true) :
    ∃ i, i < alive.length ∧ alive.getD i false = true := by
  rw [List.any_eq_true] at h
  obtain ⟨x, hx, hpx⟩ := h
  obtain ⟨i, hi, hgi⟩ := List.mem_iff_getElem.mp hx
  refine ⟨i, hi, ?_⟩
  rw [List.getD_eq_getElem _ _ hi, hgi]
  exact hpx

theorem shutdown_loop_all_dead (oracle : Nat → Nat → Bool)
    (alive : List Bool) (h : alive.any (fun a => a) = false) :
    ∀ fuel pass sig, shutdown_loop oracle fuel pass alive sig
      = some (alive, sig) := by
  intro fuel pass sig
  cases fuel with
  | zero => simp [shutdown_loop, h]
  | succ n => simp [shutdown_loop, h]

/-- If every instance still alive is observed dead by some pass within the
fuel window, the shutdown loop exits with every instance dead. -/
theorem shutdown_loop_terminates (oracle : Nat → Nat → Bool) :
    ∀ (fuel pass : Nat) (alive : List Bool) (sig : Nat),
      (∀ i, i < alive.length → alive.getD i false = true →
        ∃ k, pass ≤ k ∧ k < pass + fuel ∧ oracle k i = true) →
      ∃ final sig2, shutdown_loop oracle fuel pass alive sig = some (final, sig2)
        ∧ final.any (fun a => a) = false := by
  intro fuel
  induction fuel with
  | zero =>
    intro pass alive sig h
    have hany : alive.any (fun a => a) = false := by
      by_contra hc
      rw [Bool.not_eq_false] at hc
      obtain ⟨i, hi, hgi⟩ := any_getD_of_any alive hc
      obtain ⟨k, hk1, hk2, -⟩ := h i hi hgi
      omega
    exact ⟨alive, sig, by simp [shutdown_loop, hany], hany⟩
  | succ n ih =>
    intro pass alive sig h
    cases hany : alive.any (fun a => a) with
    | false =>
      exact ⟨alive, sig, by simp [shutdown_loop, hany], hany⟩
    | true =>
      have hstep : shutdown_loop oracle (n + 1) pass alive sig
          = shutdown_loop oracle n (pass + 1)
              (signalJoin (oracle pass) 0 alive)
              (sig + (alive.filter (fun a => a)).length) := by
        simp [shutdown_loop, hany, shutdown_pass]
      have hnext : ∀ i, i < (signalJoin (oracle pass) 0 alive).length →
          (signalJoin (oracle pass) 0 alive).getD i false = true →
          ∃ k, pass + 1 ≤ k ∧ k < pass + 1 + n ∧ oracle k i = true := by
        intro i hi hgi
        rw [signalJoin_length] at hi
        rw [signalJoin_getD, Nat.zero_add, Bool.and_eq_true,
          Bool.not_eq_true'] at hgi
        obtain ⟨ha, hko⟩ := hgi
        obtain ⟨k, hk1, hk2, hk3⟩ := h i hi ha
        have hkp : k ≠ pass := by
          intro hh
          rw [hh, hko] at hk3
          exact Bool.noConfusion hk3
        exact ⟨k, by omega, by omega, hk3⟩
      obtain ⟨final, sig2, hloop, hfin⟩ := ih (pass + 1)
        (signalJoin (oracle pass) 0 alive)
        (sig + (alive.filter (fun a => a)).length) hnext
      exact ⟨final, sig2, by rw [hstep]; exact hloop, hfin⟩

/-- C8: `shutdown()` never raises and is idempotent — when no worker
instance is alive it sends no signals, changes nothing and returns at
once (in particular on a second call after a completed shutdown); with
live workers it repeats the signal-and-join pass until no worker remains
alive, terminating as soon as every worker is observed dead (the join
oracle reports each live worker dead by some pass below the bound). -/
theorem shutdown_no_raise_idempotent (oracle : Nat → Nat → Bool)
    (alive : List Bool) :
    (alive.any (fun a => a) = false →
      ∀ fuel, shutdown oracle fuel alive = some (alive, 0))
  ∧ (∀ B, (∀ i, i < alive.length → ∃ k, k < B ∧ oracle k i = true) →
      ∀ fuel, B ≤ fuel →
      ∃ final sig, shutdown oracle fuel alive = some (final, sig)
        ∧ final.any (fun a => a) = false
        ∧ ∀ fuel2, shutdown oracle fuel2 final = some (final, 0)) := by
  constructor
  · intro h fuel
    exact shutdown_loop_all_dead oracle alive h fuel 0 0
  · intro B hB fuel hfuel
    obtain ⟨final, sig, hloop, hfin⟩ := shutdown_loop_terminates oracle fuel 0
      alive 0 (by
        intro i hi _
        obtain ⟨k, hk1, hk2⟩ := hB i hi
        exact ⟨k, by omega, by omega, hk2⟩)
    exact ⟨final, sig, hloop, hfin,
      fun fuel2 => shutdown_loop_all_dead oracle final hfin fuel2 0 0⟩

/-- C8 witness: two live workers, every join observed successful — the
shutdown loop reaches the all-dead state, and a repeated shutdown from
that state returns immediately with no signal sent. -/
theorem shutdown_no_raise_idempotent_witness :
    ∃ final sig, shutdown (fun _ _ => true) 3 [true, true] = some (final, sig)
      ∧ final.any (fun a => a) = false
      ∧ ∀ fuel2, shutdown (fun _ _ => true) fuel2 final = some (final, 0) :=
  (shutdown_no_raise_idempotent (fun _ _ => true) [true, true]).2 1
    (fun i _ => ⟨0, Nat.zero_lt_one, rfl⟩) 3 (by omega)

/-! ## C2 -/

/-- Two-node graph with a correctly typed edge: root declares output
class 2, its single child declares input class 2. -/
def matchedChild : Processor :=
  (Processor.init Nat "child" (some 2) (some 3) 1 (Processor.init Nat "root" (some 1) (some 2) 1 []).2).1

/-- Queue store after constructing the root and child of
`matchedGraph`. -/
def matchedStore : QStore Nat :=
  (Processor.init Nat "child" (some 2) (some 3) 1 (Processor.init Nat "root" (some 1) (some 2) 1 []).2).2

/-- The matched two-node graph (root 0 with the single child 1). -/
def matchedGraph : ProcessorGraph :=
  { procs := [(Processor.init Nat "root" (some 1) (some 2) 1 []).1, matchedChild],
    adj := [(0, [1]), (1, [])], cursor := -1 }

/-- C2 counterexample: the claim says a parent with K children has exactly
K output queues after `start()`. In `matchedGraph` the root has K = 1
child, yet after a successful `start()` it owns 2 output queues: the
default queue created at construction (the root declares an output model)
plus the one edge queue — the build appends with `add_output_queue` and
never removes the default. -/
theorem graph_parent_queue_count_cex :
    (childrenOf matchedGraph.adj 0).length = 1
  ∧ ∃ g st, ProcessorGraph.start matchedGraph matchedStore = .ok (g, st)
      ∧ (g.procs.getD 0 emptyProc).outputQueues.length = 2 := by
  refine ⟨rfl, ?_, ?_, ?_⟩
  · exact (ProcessorGraph.start matchedGraph matchedStore).toOption.get (by decide) |>.1
  · exact (ProcessorGraph.start matchedGraph matchedStore).toOption.get (by decide) |>.2
  · constructor
    · decide
    · decide

theorem pushResult_some_eq_foldl {α : Type} (oqs : List QueueId) (r : α)
    (st : QStore α) :
    pushResult oqs (some r) st = oqs.foldl (fun s q => qput s q r) st := by
  cases oqs <;> rfl

theorem foldl_qput_length {α : Type} (qs : List QueueId) (r : α)
    (st : QStore α) :
    (qs.foldl (fun s q => qput s q r) st).length = st.length := by
  induction qs generalizing st with
  | nil => rfl
  | cons q0 rest ih =>
    rw [List.foldl_cons, ih]
    exact List.length_set st q0 _

theorem foldl_qput_getD_not_mem {α : Type} (qs : List QueueId) (r : α)
    (st : QStore α) (q : QueueId) (hq : q ∉ qs) :
    (qs.foldl (fun s q2 => qput s q2 r) st).getD q [] = st.getD q [] := by
  induction qs generalizing st with
  | nil => rfl
  | cons q0 rest ih =>
    rw [List.foldl_cons]
    have hne : q ≠ q0 := fun hh => hq (hh ▸ List.mem_cons_self q0 rest)
    rw [ih _ (fun hm => hq (List.mem_cons_of_mem q0 hm))]
    exact qput_getD_ne st q0 q r hne

/-- Fan-out broadcast (`Processor._run` lines 216-219): a produced result
is appended to every output queue. -/
theorem pushResult_some_getD_mem {α : Type} (oqs : List QueueId) (r : α)
    (st : QStore α) (hnd : oqs.Nodup) (hval : ∀ q ∈ oqs, q < st.length)
    (q : QueueId) (hq : q ∈ oqs) :
    (pushResult oqs (some r) st).getD q [] = st.getD q [] ++ [r] := by
  rw [pushResult_some_eq_foldl]
  induction oqs generalizing st with
  | nil => simp at hq
  | cons q0 rest ih =>
    rw [List.foldl_cons]
    rcases List.mem_cons.mp hq with hq1 | hq1
    · subst hq1
      have hnm : q ∉ rest := (List.nodup_cons.mp hnd).1
      rw [foldl_qput_getD_not_mem rest r _ q hnm]
      exact qput_getD_self st q r (hval q (List.mem_cons_self q rest))
    · have hne : q ≠ q0 := by
        intro hh
        exact (List.nodup_cons.mp hnd).1 (hh ▸ hq1)
      have hval2 : ∀ q2 ∈ rest, q2 < (qput st q0 r).length := by
        intro q2 hq2
        have hl : (qput st q0 r).length = st.length := List.length_set st q0 _
        rw [hl]
        exact hval q2 (List.mem_cons_of_mem q0 hq2)
      rw [ih (qput st q0 r) (List.nodup_cons.mp hnd).2 hval2 hq1,
        qput_getD_ne st q0 q r hne]

/-- Effect on `outputQueues` lengths of the double update performed per
edge by the build: the source gains one queue, every other processor's
output queues are untouched (the target only has its input queue set). -/
theorem getD_set_set_outputQueues (procs : List Processor) (s t : Nat)
    (sp1 tp1 : Processor) (hs : s < procs.length)
    (hsp : sp1.outputQueues.length
      = (procs.getD s emptyProc).outputQueues.length + 1)
    (htp : tp1.outputQueues
      = ((procs.set s sp1).getD t emptyProc).outputQueues) :
    ∀ i, (((procs.set s sp1).set t tp1).getD i emptyProc).outputQueues.length
      = (procs.getD i emptyProc).outputQueues.length
        + (if s = i then 1 else 0) := by
  intro i
  by_cases hit : i = t
  · subst hit
    by_cases hil : i < procs.length
    · rw [getD_set_self _ _ _ _ (by rw [List.length_set]; exact hil), htp]
      by_cases his : s = i
      · subst his
        rw [getD_set_self _ _ _ _ hil, if_pos rfl, hsp]
      · rw [getD_set_ne _ _ _ _ _ (fun hh => his hh.symm), if_neg his]
        exact (Nat.add_zero _).symm
    · have h2 : procs.length ≤ i := Nat.le_of_not_lt hil
      have hsi : ¬s = i := fun hh => hil (hh ▸ hs)
      rw [List.getD_eq_default _ _
          (by rw [List.length_set, List.length_set]; exact h2),
        List.getD_eq_default _ _ h2, if_neg hsi]
      exact (Nat.add_zero _).symm
  · rw [getD_set_ne _ _ _ _ _ hit]
    by_cases his : s = i
    · subst his
      rw [getD_set_self _ _ _ _ hs, if_pos rfl, hsp]
    · rw [getD_set_ne _ _ _ _ _ (fun hh => his hh.symm), if_neg his]
      exact (Nat.add_zero _).symm

/-- Count of the queues attached by `ProcessorGraph._build_processor_chain`:
it appends exactly one output queue to the source of every walked edge and
only ever touches `outputQueues` through those appends. -/
theorem build_edges_count {α : Type} (edges : List (Nat × Nat)) :
    ∀ (procs : List Processor) (st : QStore α) (procs' : List Processor)
      (st' : QStore α),
      build_edges procs st edges = .ok (procs', st') →
      (∀ e ∈ edges, e.1 < procs.length) →
      procs'.length = procs.length
      ∧ ∀ i, (procs'.getD i emptyProc).outputQueues.length
          = (procs.getD i emptyProc).outputQueues.length
            + (edges.filter (fun e => e.1 = i)).length := by
  induction edges with
  | nil =>
    intro procs st procs' st' hok hsrc
    simp only [build_edges] at hok
    injection hok with h
    injection h with h1 h2
    subst h1
    exact ⟨rfl, fun i => by simp⟩
  | cons e rest ih =>
    intro procs st procs' st' hok hsrc
    obtain ⟨s, t⟩ := e
    simp only [build_edges] at hok
    rcases hge : graph_build_edge procs st s t with err | r1
    · rw [hge] at hok; exact absurd hok (by simp)
    · rw [hge] at hok
      unfold graph_build_edge at hge
      by_cases hty : (!pyTypeIs (procs.getD s emptyProc).output_model
          ((procs.getD t emptyProc).input_model)) = true
      · rw [if_pos hty] at hge; exact absurd hge (by simp)
      · rw [if_neg hty] at hge
        unfold Processor.add_output_queue at hge
        simp only [qalloc] at hge
        by_cases hmem : (st.length : QueueId) ∈ (procs.getD s emptyProc).outputQueues
        · rw [if_pos hmem] at hge; exact absurd hge (by simp)
        · rw [if_neg hmem] at hge
          injection hge with hge1
          obtain ⟨hp1, hs1⟩ : r1.1 = (procs.set s
              { procs.getD s emptyProc with
                outputQueues := (procs.getD s emptyProc).outputQueues ++ [st.length] }).set t
              (((procs.set s
                { procs.getD s emptyProc with
                  outputQueues := (procs.getD s emptyProc).outputQueues ++ [st.length] }).getD t emptyProc).set_input_queue
                (some st.length))
            ∧ r1.2 = st ++ [[]] := by
            constructor
            · rw [← hge1]
            · rw [← hge1]
          have hs : s < procs.length := hsrc (s, t) (List.mem_cons_self _ _)
          have hlen1 : r1.1.length = procs.length := by
            rw [hp1, List.length_set, List.length_set]
          obtain ⟨hlen2, hcount⟩ := ih r1.1 r1.2 procs' st' hok
            (fun e2 he2 => by rw [hlen1]; exact hsrc e2 (List.mem_cons_of_mem _ he2))
          refine ⟨by rw [hlen2, hlen1], ?_⟩
          intro i
          rw [hcount i]
          have hqlen := getD_set_set_outputQueues procs s t
            { procs.getD s emptyProc with
              outputQueues := (procs.getD s emptyProc).outputQueues ++ [st.length] }
            (((procs.set s
              { procs.getD s emptyProc with
                outputQueues := (procs.getD s emptyProc).outputQueues ++ [st.length] }).getD t emptyProc).set_input_queue
              (some st.length)) hs (by simp) rfl i
          rw [hp1] at *
          rw [hqlen, List.filter_cons]
          by_cases his : s = i
          · rw [if_pos his, if_pos (by simp [his]), List.length_cons]
            omega
          · rw [if_neg his, if_neg (by simp [his])]
            omega

/-- Source stage used by the fan-out witness: output class 1 declared, one
default output queue (queue 0). -/
def fanoutP : Processor :=
  { name := "s", input_model := none, output_model := some 1,
    instances := 1, inputQueue := none, outputQueues := [0], processes := 0 }

/-- Sink stage used by the fan-out witness: input class 1 declared. -/
def fanoutQ : Processor :=
  { name := "t", input_model := some 1, output_model := none,
    instances := 1, inputQueue := none, outputQueues := [], processes := 0 }

/-- C2 amended: after a successful graph build a parent with K children
has its construction-time output queues (exactly one when an output model
is declared) plus K edge queues — K+1 in the declared-output case, not K —
and the worker loop enqueues every produced result onto every output
queue, so every child still independently receives every parent result. -/
theorem graph_fanout_broadcast {α : Type} :
    (∀ (edges : List (Nat × Nat)) (procs procs' : List Processor)
        (st st' : QStore α),
      build_edges procs st edges = .ok (procs', st') →
      (∀ e ∈ edges, e.1 < procs.length) →
      ∀ i, (procs'.getD i emptyProc).outputQueues.length
        = (procs.getD i emptyProc).outputQueues.length
          + (edges.filter (fun e => e.1 = i)).length)
  ∧ (∀ (name : String) (im om : Option ModelTy) (n : Nat) (st0 : QStore α),
      om.isSome = true →
      (Processor.init α name im om n st0).1.outputQueues.length = 1)
  ∧ (∀ (target : Option α → Except Unit (Option α)) (iq : QueueId)
        (oqs : List QueueId) (w : WorkerView α) (x r : α) (xs : List α),
      w.store.getD iq [] = x :: xs → target (some x) = .ok (some r) →
      oqs.Nodup → (∀ q ∈ oqs, q < w.store.length) → iq ∉ oqs →
      ∀ q ∈ oqs, (run_step target (some iq) oqs w).store.getD q []
        = w.store.getD q [] ++ [r]) := by
  refine ⟨?_, ?_, ?_⟩
  · intro edges procs procs' st st' hok hsrc
    exact (build_edges_count edges procs st procs' st' hok hsrc).2
  · intro name im om n st0 hom
    unfold Processor.init
    cases om with
    | none => exact absurd hom (by simp)
    | some m => cases im <;> simp
  · intro target iq oqs w x r xs hx htgt hnd hval hiq q hq
    have hw : run_step target (some iq) oqs w
        = { store := pushResult oqs (some r) (w.store.set iq xs),
            counter := w.counter + 1 } := by
      simp only [run_step, qget?, hx, htgt]
    rw [hw]
    have hval2 : ∀ q2 ∈ oqs, q2 < (w.store.set iq xs).length := by
      intro q2 hq2
      rw [List.length_set]
      exact hval q2 hq2
    rw [pushResult_some_getD_mem oqs r _ hnd hval2 q hq]
    have hne : q ≠ iq := fun hh => hiq (hh ▸ hq)
    rw [getD_set_ne w.store iq q xs [] hne]

/-- C2 witness: a one-edge build adds one queue to the source's single
default queue; a construction with a declared output model has one output
queue; a produced result lands on both output queues of a two-queue
processor. -/
theorem graph_fanout_broadcast_witness :
    ((([{ fanoutP with outputQueues := [0, 1] },
        { fanoutQ with inputQueue := some 1 }] : List Processor).getD 0
          emptyProc).outputQueues.length
      = (([fanoutP, fanoutQ] : List Processor).getD 0
          emptyProc).outputQueues.length + 1)
  ∧ (Processor.init Nat "w" none (some 5) 1 []).1.outputQueues.length = 1
  ∧ (run_step (fun _ => .ok (some 9)) (some 0) [1, 2]
      (⟨[[4], [], []], 0⟩ : WorkerView Nat)).store.getD 1 [] = [9]
  ∧ (run_step (fun _ => .ok (some 9)) (some 0) [1, 2]
      (⟨[[4], [], []], 0⟩ : WorkerView Nat)).store.getD 2 [] = [9] := by
  have h := graph_fanout_broadcast (α := Nat)
  refine ⟨?_, ?_, ?_, ?_⟩
  · have h1 := h.1 [(0, 1)] [fanoutP, fanoutQ]
      [{ fanoutP with outputQueues := [0, 1] },
       { fanoutQ with inputQueue := some 1 }]
      [[]] [[], []] (by decide) (by decide) 0
    simpa using h1
  · exact h.2.1 "w" none (some 5) 1 [] rfl
  · have h3 := h.2.2 (fun _ => .ok (some 9)) 0 [1, 2]
      (⟨[[4], [], []], 0⟩ : WorkerView Nat) 4 9 []
      rfl rfl (by decide) (by decide) (by decide) 1 (by decide)
    simpa using h3
  · have h4 := h.2.2 (fun _ => .ok (some 9)) 0 [1, 2]
      (⟨[[4], [], []], 0⟩ : WorkerView Nat) 4 9 []
      rfl rfl (by decide) (by decide) (by decide) 2 (by decide)
    simpa using h4

/-! ## C3 -/

/-- The terminal processor designated by cursor position `c`. -/
def procAtCursor (g : ProcessorGraph) (c : Int) : Processor :=
  g.procs.getD (g.terminalIds.getD c.toNat 0) emptyProc

/-- Whether the terminal processor at cursor position `c` has output. -/
def hasOutAt {α : Type} (g : ProcessorGraph) (st : QStore α) (c : Int) : Bool :=
  (procAtCursor g c).has_output st

/-- `k`-fold iteration of the cursor advance. -/
def advIter (n : Nat) : Nat → Int → Int
  | 0, c => c
  | k + 1, c => advIter n k (adv n c)

theorem terminalIds_set_cursor (g : ProcessorGraph) (c : Int) :
    ({ g with cursor := c } : ProcessorGraph).terminalIds = g.terminalIds := rfl

/-- One unfolding of the round-robin loop: advance the cursor; on output
return it, otherwise continue with the moved cursor. -/
theorem get_output_loop_step {α : Type} (g : ProcessorGraph) (st : QStore α)
    (fuel : Nat) :
    get_output_loop g st (fuel + 1)
      = (if hasOutAt g st (adv g.terminalIds.length g.cursor) then
          (((procAtCursor g (adv g.terminalIds.length g.cursor)).get_output st).1,
           { g with cursor := adv g.terminalIds.length g.cursor },
           ((procAtCursor g (adv g.terminalIds.length g.cursor)).get_output st).2)
         else get_output_loop
          { g with cursor := adv g.terminalIds.length g.cursor } st fuel) := by
  simp only [get_output_loop, ProcessorGraph.get_next_terminal, hasOutAt,
    procAtCursor]

/-- Exhausting the loop with no candidate having output returns `none` and
leaves the store untouched. -/
theorem get_output_loop_miss {α : Type} :
    ∀ (fuel : Nat) (g : ProcessorGraph) (st : QStore α),
      (∀ j, j < fuel →
        hasOutAt g st (advIter g.terminalIds.length (j + 1) g.cursor) = false) →
      (get_output_loop g st fuel).1 = (none : Option (Result α))
      ∧ (get_output_loop g st fuel).2.2 = st := by
  intro fuel
  induction fuel with
  | zero => intro g st _; exact ⟨rfl, rfl⟩
  | succ f ih =>
    intro g st h
    rw [get_output_loop_step]
    have h0 : hasOutAt g st (adv g.terminalIds.length g.cursor) = false :=
      h 0 (Nat.succ_pos f)
    rw [if_neg (by rw [h0]; exact Bool.false_ne_true)]
    have hnext : ∀ j, j < f →
        hasOutAt ({ g with cursor := adv g.terminalIds.length g.cursor })
          st (advIter ({ g with cursor := adv g.terminalIds.length g.cursor } :
            ProcessorGraph).terminalIds.length (j + 1)
            ({ g with cursor := adv g.terminalIds.length g.cursor } :
              ProcessorGraph).cursor) = false := by
      intro j hj
      exact h (j + 1) (by omega)
    exact ih _ st hnext

/-- Hitting the first candidate with output: the loop returns that
terminal's output and parks the cursor on it. -/
theorem get_output_loop_hit {α : Type} :
    ∀ (j0 fuel : Nat) (g : ProcessorGraph) (st : QStore α),
      j0 < fuel →
      (∀ j, j < j0 →
        hasOutAt g st (advIter g.terminalIds.length (j + 1) g.cursor) = false) →
      hasOutAt g st (advIter g.terminalIds.length (j0 + 1) g.cursor) = true →
      get_output_loop g st fuel
        = (((procAtCursor g (advIter g.terminalIds.length (j0 + 1) g.cursor)).get_output st).1,
           { g with cursor := advIter g.terminalIds.length (j0 + 1) g.cursor },
           ((procAtCursor g (advIter g.terminalIds.length (j0 + 1) g.cursor)).get_output st).2) := by
  intro j0
  induction j0 with
  | zero =>
    intro fuel g st hf hmiss hhit
    cases fuel with
    | zero => omega
    | succ f =>
      rw [get_output_loop_step]
      rw [if_pos (by exact hhit)]
      rfl
  | succ j ihj =>
    intro fuel g st hf hmiss hhit
    cases fuel with
    | zero => omega
    | succ f =>
      rw [get_output_loop_step]
      have h0 : hasOutAt g st (adv g.terminalIds.length g.cursor) = false :=
        hmiss 0 (Nat.succ_pos j)
      rw [if_neg (by rw [h0]; exact Bool.false_ne_true)]
      exact ihj f { g with cursor := adv g.terminalIds.length g.cursor } st
        (by omega) (fun j2 hj2 => hmiss (j2 + 1) (by omega)) hhit

theorem adv_two_range (c : Int) (h1 : -1 ≤ c) (h2 : c < 2) :
    adv 2 (adv 2 c) ≠ adv 2 c ∧ 0 ≤ adv 2 c ∧ adv 2 c < 2
    ∧ 0 ≤ adv 2 (adv 2 c) ∧ adv 2 (adv 2 c) < 2 := by
  have hc : c = -1 ∨ c = 0 ∨ c = 1 := by omega
  rcases hc with hc | hc | hc <;> subst hc <;> decide

/-- C3: each `get_output()` call advances the cursor (wrapping at the
number of terminal processors), inspects at most that many candidates
starting from the advanced position, returns the output of the first
candidate that has output — parking the cursor on it — and returns `None`
(store untouched) when no terminal processor has output; with two terminal
processors both holding output across two consecutive calls, the calls
pick the two distinct cursor positions, hence two distinct terminal
processors when the terminal list is duplicate-free. -/
theorem graph_get_output_round_robin {α : Type} (g : ProcessorGraph)
    (st : QStore α) (n : Nat) (hn : g.terminalIds.length = n) :
    ((∀ j, j < n → hasOutAt g st (advIter n (j + 1) g.cursor) = false) →
      (ProcessorGraph.get_output g st).1 = (none : Option (Result α))
      ∧ (ProcessorGraph.get_output g st).2.2 = st)
  ∧ (∀ j0, j0 < n →
      (∀ j, j < j0 → hasOutAt g st (advIter n (j + 1) g.cursor) = false) →
      hasOutAt g st (advIter n (j0 + 1) g.cursor) = true →
      ProcessorGraph.get_output g st
        = (((procAtCursor g (advIter n (j0 + 1) g.cursor)).get_output st).1,
           { g with cursor := advIter n (j0 + 1) g.cursor },
           ((procAtCursor g (advIter n (j0 + 1) g.cursor)).get_output st).2))
  ∧ (n = 2 → -1 ≤ g.cursor → g.cursor < 2 →
      hasOutAt g st (adv 2 g.cursor) = true →
      ∀ st2 : QStore α,
        hasOutAt g st2 (adv 2 (adv 2 g.cursor)) = true →
        (ProcessorGraph.get_output g st).2.1.cursor = adv 2 g.cursor
        ∧ (ProcessorGraph.get_output
            (ProcessorGraph.get_output g st).2.1 st2).2.1.cursor
            = adv 2 (adv 2 g.cursor)
        ∧ adv 2 (adv 2 g.cursor) ≠ adv 2 g.cursor
        ∧ (g.terminalIds.Nodup →
            g.terminalIds.getD (adv 2 (adv 2 g.cursor)).toNat 0
              ≠ g.terminalIds.getD (adv 2 g.cursor).toNat 0)) := by
  subst hn
  refine ⟨?_, ?_, ?_⟩
  · intro h
    exact get_output_loop_miss g.terminalIds.length g st h
  · intro j0 hj0 hmiss hhit
    exact get_output_loop_hit j0 g.terminalIds.length g st hj0 hmiss hhit
  · intro hn2 hc1 hc2 hout1 st2 hout2
    obtain ⟨hne, ha1, ha2, hb1, hb2⟩ := adv_two_range g.cursor hc1 hc2
    have hadv1 : advIter g.terminalIds.length (0 + 1) g.cursor
        = adv 2 g.cursor := by
      rw [hn2]
      rfl
    have hcall1 : ProcessorGraph.get_output g st
        = (((procAtCursor g (adv 2 g.cursor)).get_output st).1,
           { g with cursor := adv 2 g.cursor },
           ((procAtCursor g (adv 2 g.cursor)).get_output st).2) := by
      have h := get_output_loop_hit 0 g.terminalIds.length g st
        (by omega) (by intro j hj; omega) (by rw [hadv1]; exact hout1)
      rw [hadv1] at h
      exact h
    have hg1 : (ProcessorGraph.get_output g st).2.1
        = { g with cursor := adv 2 g.cursor } := by rw [hcall1]
    have hadv2 : advIter
        ({ g with cursor := adv 2 g.cursor } : ProcessorGraph).terminalIds.length
        (0 + 1) ({ g with cursor := adv 2 g.cursor } : ProcessorGraph).cursor
        = adv 2 (adv 2 g.cursor) := by
      rw [terminalIds_set_cursor, hn2]
      rfl
    have hcall2 : ProcessorGraph.get_output
        ({ g with cursor := adv 2 g.cursor } : ProcessorGraph) st2
        = (((procAtCursor ({ g with cursor := adv 2 g.cursor })
              (adv 2 (adv 2 g.cursor))).get_output st2).1,
           { g with cursor := adv 2 (adv 2 g.cursor) },
           ((procAtCursor ({ g with cursor := adv 2 g.cursor })
              (adv 2 (adv 2 g.cursor))).get_output st2).2) := by
      have h := get_output_loop_hit 0
        ({ g with cursor := adv 2 g.cursor } : ProcessorGraph).terminalIds.length
        ({ g with cursor := adv 2 g.cursor }) st2
        (by rw [terminalIds_set_cursor]; omega)
        (by intro j hj; omega)
        (by rw [hadv2]; exact hout2)
      rw [hadv2] at h
      exact h
    refine ⟨by rw [hcall1], ?_, hne, ?_⟩
    · rw [hg1, hcall2]
    · intro hnd
      intro heq
      have hij : (adv 2 (adv 2 g.cursor)).toNat ≠ (adv 2 g.cursor).toNat := by
        omega
      have hlt1 : (adv 2 (adv 2 g.cursor)).toNat < g.terminalIds.length := by
        rw [hn2]; omega
      have hlt2 : (adv 2 g.cursor).toNat < g.terminalIds.length := by
        rw [hn2]; omega
      rw [List.getD_eq_getElem _ _ hlt1, List.getD_eq_getElem _ _ hlt2] at heq
      exact hij (hnd.getElem_inj_iff.mp heq)

/-- The add→\x7bsquare, sqrt\x7d graph of the examples after `start()`,
with one result ready in each terminal's output queue: queue 1 holds
square's 16, queue 3 holds sqrt's 2. -/
def rrGraph : ProcessorGraph :=
  { procs :=
      [{ name := "addition", input_model := some 1, output_model := some 2,
         instances := 1, inputQueue := some 4, outputQueues := [0, 2],
         processes := 1 },
       { name := "square", input_model := some 2, output_model := some 5,
         instances := 1, inputQueue := some 0, outputQueues := [1],
         processes := 1 },
       { name := "sqrt", input_model := some 2, output_model := some 6,
         instances := 1, inputQueue := some 2, outputQueues := [3],
         processes := 1 }],
    adj := [(0, [1, 2]), (1, []), (2, [])], cursor := -1 }

/-- Queue contents for `rrGraph`: both terminal output queues non-empty. -/
def rrStore : QStore Nat := [[], [16], [], [2], []]

/-- C3 witness: on the two-terminal graph with both outputs ready, the
first `get_output()` returns square's result and parks the cursor at 0;
the second call, run on the returned state, returns sqrt's result —
consecutive calls alternate processor identity. -/
theorem graph_get_output_round_robin_witness :
    (ProcessorGraph.get_output rrGraph rrStore).1
      = some { processor := "square", output := 16 }
  ∧ (ProcessorGraph.get_output rrGraph rrStore).2.1.cursor = 0
  ∧ (ProcessorGraph.get_output (ProcessorGraph.get_output rrGraph rrStore).2.1
      (ProcessorGraph.get_output rrGraph rrStore).2.2).1
      = some { processor := "sqrt", output := 2 } := by
  have h := graph_get_output_round_robin (α := Nat) rrGraph rrStore 2 rfl
  have h2 := h.2.1 0 (by decide) (fun j hj => absurd hj (by omega)) (by decide)
  refine ⟨?_, ?_, ?_⟩
  · rw [h2]; decide
  · rw [h2]; decide
  · rw [h2]; decide

end Bowline
